import Mathlib

/-
  Verification of the chunk-tracing module
  (packages/core/src/ai-tracing/chunk-tracing.ts):
  the ModelSpanTracker class and the createChunkTracingTransform
  stream stage, shallowly embedded as pure state-passing functions.

  The span backend (AISpan of ai-tracing/types, not part of the sources
  under verification) is modelled, following the interface description in
  the specification, as a growing store of span records inside the
  tracker state: createChildSpan appends a record and returns its index,
  update merges attributes, end sets the output payload and bumps an
  end-call counter.  JavaScript runtime values appearing in payloads,
  attributes and accumulators are modelled by the inductive `Value`.
-/

namespace ChunkTracing

/-- JSON-like JavaScript runtime values; `undef` models `undefined`. -/
inductive Value where
  | undef : Value
  | null : Value
  | bool : Bool → Value
  | num : Int → Value
  | str : String → Value
  | arr : List Value → Value
  | obj : List (String × Value) → Value

/-- Property lookup on a JavaScript-object-like record: first binding wins
(records built here never repeat a key). -/
def getField (r : List (String × Value)) (k : String) : Option Value :=
  match r with
  | [] => none
  | (k1, v) :: rest => if k1 = k then some v else getField rest k

/-- Property assignment: overwrite in place keeping key order, append when new
(JavaScript `o[k] = v` key-ordering semantics). -/
def setField (r : List (String × Value)) (k : String) (v : Value) : List (String × Value) :=
  match r with
  | [] => [(k, v)]
  | (k1, v1) :: rest => if k1 = k then (k, v) :: rest else (k1, v1) :: setField rest k v

/-- `Object.assign(r, updates)`: fold property assignment over the updates. -/
def assignFields (r updates : List (String × Value)) : List (String × Value) :=
  updates.foldl (fun acc kv => setField acc kv.1 kv.2) r

/-- JavaScript truthiness of a possibly-absent value. -/
def truthy : Option Value → Bool
  | none => false
  | some Value.undef => false
  | some Value.null => false
  | some (Value.bool b) => b
  | some (Value.num n) => !(n == 0)
  | some (Value.str s) => !(s == "")
  | some (Value.arr _) => true
  | some (Value.obj _) => true

/-- JavaScript string coercion, used by `+=` on a non-string accumulator field.
The array/object branches are unreachable from the transform (the fields it
appends to are only ever absent or strings). -/
def jsToString : Value → String
  | Value.undef => "undefined"
  | Value.null => "null"
  | Value.bool true => "true"
  | Value.bool false => "false"
  | Value.num n => toString n
  | Value.str s => s
  | Value.arr _ => ""
  | Value.obj _ => "[object Object]"

/-- Property read collapsing an explicit `undefined` value to absence, for
positions where the source only distinguishes `=== undefined`. -/
def jsGet (r : List (String × Value)) (k : String) : Option Value :=
  match getField r k with
  | some Value.undef => none
  | o => o

/-- View a JavaScript value as an optional argument: `undefined` means the
argument is absent. -/
def jsOpt : Value → Option Value
  | Value.undef => none
  | v => some v

/-- Embed a possibly-undefined number. -/
def optNum : Option Int → Value
  | none => Value.undef
  | some n => Value.num n

/-- Embed a possibly-undefined string. -/
def optStrV : Option String → Value
  | none => Value.undef
  | some s => Value.str s

/-- The token usage record carried by a finish chunk and stored by
setTokenUsage; each field may be undefined. -/
structure TokenUsage where
  inputTokens : Option Int
  outputTokens : Option Int
  totalTokens : Option Int
deriving DecidableEq

/-- Span types created by the tracker (the generation span itself is owned by
the caller and is only the implicit parent of the step spans). -/
inductive SpanType where
  | llmStep : SpanType
  | llmChunk : SpanType
deriving DecidableEq

/-- One span record in the modelled backend store.  `parent = none` means the
span is a child of the generation span; `endCount` counts explicit end()
calls on the handle (an event span is created already closed and never
receives an end() call). -/
structure SpanRecord where
  name : String
  typ : SpanType
  parent : Option Nat
  attributes : List (String × Value)
  output : Option Value
  endCount : Nat

/-- The full state of a ModelSpanTracker instance together with the modelled
span-backend store (`spans`, indexed by creation order) and a counter of all
backend calls made (`backendCalls`). -/
structure TrackerState where
  isEnabled : Bool
  currentStepSpan : Option Nat
  currentChunkSpan : Option Nat
  completedChunkSpans : List Nat
  accumulator : List (String × Value)
  stepIndex : Nat
  chunkSequence : Nat
  pendingTokenUsage : Option TokenUsage
  spans : List SpanRecord
  backendCalls : Nat

/-- The ModelSpanTracker constructor: enabled exactly when a generation-span
handle is supplied. -/
def mkTracker (modelSpan : Option Unit) : TrackerState :=
  { isEnabled := modelSpan.isSome
    currentStepSpan := none
    currentChunkSpan := none
    completedChunkSpans := []
    accumulator := []
    stepIndex := 0
    chunkSequence := 0
    pendingTokenUsage := none
    spans := []
    backendCalls := 0 }

/-- Modify the span record at an index of the store (no-op past the end). -/
def modifySpan (spans : List SpanRecord) (i : Nat) (f : SpanRecord → SpanRecord) :
    List SpanRecord :=
  match spans, i with
  | [], _ => []
  | r :: rest, 0 => f r :: rest
  | r :: rest, n + 1 => r :: modifySpan rest n f

/-- `SpanHandle.end({output?})` on the span at index `i`: record the output
payload and count the end call. -/
def endSpanAt (spans : List SpanRecord) (i : Nat) (output : Option Value) :
    List SpanRecord :=
  modifySpan spans i (fun r => { r with output := output, endCount := r.endCount + 1 })

/-- `SpanHandle.update({attributes})` on the span at index `i`: merge the given
attributes into the record. -/
def updateSpanAt (spans : List SpanRecord) (i : Nat) (attrs : List (String × Value)) :
    List SpanRecord :=
  modifySpan spans i (fun r => { r with attributes := assignFields r.attributes attrs })

/-- The LLM_STEP span record created by startStep for a given step index. -/
def stepRecordOf (idx : Nat) : SpanRecord :=
  { name := "step " ++ toString idx
    typ := SpanType.llmStep
    parent := none
    attributes := [("stepIndex", Value.num idx)]
    output := none
    endCount := 0 }

/-- The LLM_CHUNK span record created by startSpan under a given step span
with the current sequence counter. -/
def chunkRecordOf (chunkType : String) (stepId seq : Nat) : SpanRecord :=
  { name := "chunk: " ++ chunkType
    typ := SpanType.llmChunk
    parent := some stepId
    attributes := [("chunkType", Value.str chunkType),
                   ("sequenceNumber", Value.num seq)]
    output := none
    endCount := 0 }

/-- The already-closed LLM_CHUNK span record created by createEventSpan. -/
def eventRecordOf (chunkType : String) (stepId seq : Nat) (output : Value) : SpanRecord :=
  { name := "chunk: " ++ chunkType
    typ := SpanType.llmChunk
    parent := some stepId
    attributes := [("chunkType", Value.str chunkType),
                   ("sequenceNumber", Value.num seq)]
    output := some output
    endCount := 0 }

/-- ModelSpanTracker.startStep: open a new LLM_STEP span as a child of the
generation span, reset the chunk sequence counter and the pending usage. -/
def startStep (s : TrackerState) : TrackerState :=
  if s.isEnabled then
    { s with
      spans := s.spans ++ [stepRecordOf s.stepIndex]
      backendCalls := s.backendCalls + 1
      currentStepSpan := some s.spans.length
      chunkSequence := 0
      pendingTokenUsage := none }
  else s

/-- The attribute record `\x7b...pendingTokenUsage, finishReason\x7d` built by
endStep when a pending usage exists. -/
def usageAttrs (u : TokenUsage) (finishReason : Option String) : List (String × Value) :=
  [("inputTokens", optNum u.inputTokens),
   ("outputTokens", optNum u.outputTokens),
   ("totalTokens", optNum u.totalTokens),
   ("finishReason", optStrV finishReason)]

/-- Truthiness of the optional finishReason argument. -/
def frTruthy : Option String → Bool
  | none => false
  | some s => !(s == "")

/-- ModelSpanTracker.endStep: apply pending token usage (or a truthy finish
reason) via update, end the step span with an empty payload, clear the open
step and advance the step index. -/
def endStep (s : TrackerState) (finishReason : Option String) : TrackerState :=
  if s.isEnabled then
    match s.currentStepSpan with
    | none => s
    | some i =>
      let s1 :=
        match s.pendingTokenUsage with
        | some u =>
          { s with spans := updateSpanAt s.spans i (usageAttrs u finishReason)
                   backendCalls := s.backendCalls + 1 }
        | none =>
          if frTruthy finishReason then
            { s with spans := updateSpanAt s.spans i [("finishReason", optStrV finishReason)]
                     backendCalls := s.backendCalls + 1 }
          else s
      { s1 with
        spans := endSpanAt s1.spans i none
        backendCalls := s1.backendCalls + 1
        currentStepSpan := none
        stepIndex := s.stepIndex + 1 }
  else s

/-- ModelSpanTracker.setTokenUsage: store the pending usage fact. -/
def setTokenUsage (s : TrackerState) (u : TokenUsage) : TrackerState :=
  if s.isEnabled then { s with pendingTokenUsage := some u } else s

/-- ModelSpanTracker.startSpan: auto-start a step if none is open, then open a
new LLM_CHUNK span under it and initialize the accumulator. -/
def startSpan (s : TrackerState) (chunkType : String)
    (initialData : Option (List (String × Value))) : TrackerState :=
  if s.isEnabled then
    let s2 := match s.currentStepSpan with
      | none => startStep s
      | some _ => s
    match s2.currentStepSpan with
    | none =>
      { s2 with currentChunkSpan := none, accumulator := initialData.getD [] }
    | some stepId =>
      { s2 with
        spans := s2.spans ++ [chunkRecordOf chunkType stepId s2.chunkSequence]
        backendCalls := s2.backendCalls + 1
        currentChunkSpan := some s2.spans.length
        accumulator := initialData.getD [] }
  else s

/-- ModelSpanTracker.updateAccumulator: Object.assign into the accumulator. -/
def updateAccumulator (s : TrackerState) (updates : List (String × Value)) : TrackerState :=
  if s.isEnabled then { s with accumulator := assignFields s.accumulator updates } else s

/-- ModelSpanTracker.appendToAccumulator: set the field on first write
(absent or explicitly undefined), otherwise string-append via `+=`. -/
def appendToAccumulator (s : TrackerState) (field text : String) : TrackerState :=
  if s.isEnabled then
    match getField s.accumulator field with
    | none =>
      { s with accumulator := setField s.accumulator field (Value.str text) }
    | some Value.undef =>
      { s with accumulator := setField s.accumulator field (Value.str text) }
    | some v =>
      { s with accumulator := setField s.accumulator field (Value.str (jsToString v ++ text)) }
  else s

/-- ModelSpanTracker.endCurrentSpan: end the open chunk span with the given
output, or with the whole accumulator when the output argument is undefined;
record it as completed, clear the accumulator and advance the sequence
counter.  No-op when no chunk span is open. -/
def endCurrentSpan (s : TrackerState) (output : Option Value) : TrackerState :=
  if s.isEnabled then
    match s.currentChunkSpan with
    | none => s
    | some i =>
      { s with
        spans := endSpanAt s.spans i (some (output.getD (Value.obj s.accumulator)))
        backendCalls := s.backendCalls + 1
        completedChunkSpans := s.completedChunkSpans ++ [i]
        currentChunkSpan := none
        accumulator := []
        chunkSequence := s.chunkSequence + 1 }
  else s

/-- ModelSpanTracker.createEventSpan: auto-start a step if none is open, then
create an already-closed LLM_CHUNK event span under it, record it as
completed and advance the sequence counter. -/
def createEventSpan (s : TrackerState) (chunkType : String) (output : Value) : TrackerState :=
  if s.isEnabled then
    let s2 := match s.currentStepSpan with
      | none => startStep s
      | some _ => s
    match s2.currentStepSpan with
    | none => s2
    | some stepId =>
      { s2 with
        spans := s2.spans ++ [eventRecordOf chunkType stepId s2.chunkSequence output]
        backendCalls := s2.backendCalls + 1
        completedChunkSpans := s2.completedChunkSpans ++ [s2.spans.length]
        chunkSequence := s2.chunkSequence + 1 }
  else s

/-- ModelSpanTracker.hasActiveSpan. -/
def hasActiveSpan (s : TrackerState) : Bool :=
  s.currentChunkSpan.isSome

/-- ModelSpanTracker.getAccumulator. -/
def getAccumulator (s : TrackerState) : List (String × Value) :=
  s.accumulator

/-- ModelSpanTracker.getCompletedSpans (as the list of store indices of the
completed chunk spans, in completion order). -/
def getCompletedSpans (s : TrackerState) : List Nat :=
  s.completedChunkSpans

/-- The double-quote character. -/
def quoteChar : Char := Char.ofNat 34

/-- The backslash character. -/
def backslashChar : Char := Char.ofNat 92

/-- The opening curly brace character. -/
def lbraceChar : Char := Char.ofNat 123

/-- The closing curly brace character. -/
def rbraceChar : Char := Char.ofNat 125

/-- JSON whitespace. -/
def isWs (c : Char) : Bool :=
  c == ' ' || c == '\t' || c == '\n' || c == '\r'

/-- Drop leading JSON whitespace. -/
def skipWs : List Char → List Char
  | [] => []
  | c :: cs => if isWs c then skipWs cs else c :: cs

/-- JSON string escape codes (the \uXXXX form is not modelled). -/
def escChar (c : Char) : Option Char :=
  if c == quoteChar then some quoteChar
  else if c == backslashChar then some backslashChar
  else if c == '/' then some '/'
  else if c == 'n' then some '\n'
  else if c == 't' then some '\t'
  else if c == 'r' then some '\r'
  else if c == 'b' then some (Char.ofNat 8)
  else if c == 'f' then some (Char.ofNat 12)
  else none

/-- Parse the body of a JSON string after its opening quote, returning the
decoded characters and the input following the closing quote. -/
def parseStringBody : List Char → Option (List Char × List Char)
  | [] => none
  | c :: cs =>
    if c == quoteChar then some ([], cs)
    else if c == backslashChar then
      match cs with
      | [] => none
      | e :: cs2 =>
        match escChar e with
        | none => none
        | some ec =>
          match parseStringBody cs2 with
          | none => none
          | some (body, rest) => some (ec :: body, rest)
    else
      match parseStringBody cs with
      | none => none
      | some (body, rest) => some (c :: body, rest)

/-- Split a maximal run of decimal digits off the front of the input. -/
def takeDigits : List Char → List Char × List Char
  | [] => ([], [])
  | c :: cs =>
    if c.isDigit then
      let p := takeDigits cs
      (c :: p.1, p.2)
    else ([], c :: cs)

/-- Decimal value of a digit run. -/
def digitsToNat (ds : List Char) : Nat :=
  ds.foldl (fun n c => n * 10 + (c.toNat - 48)) 0

/-- Rejects a fraction or exponent continuing a number literal (the modelled
JSON fragment is integer-only; the transform only ever parses tool-call
argument objects). -/
def numTailBad : List Char → Bool
  | [] => false
  | c :: _ => c == '.' || c == 'e' || c == 'E'

mutual

/-- Modelled from the spec: the platform JSON.parse used at tool-call span
end ("attempt to parse `toolInput` as structured data").  Fuel-indexed
recursive-descent parser for one JSON value. -/
def parseVal : Nat → List Char → Option (Value × List Char)
  | 0, _ => none
  | fuel + 1, cs =>
    match skipWs cs with
    | [] => none
    | c :: rest =>
      if c == quoteChar then
        match parseStringBody rest with
        | some (body, r) => some (Value.str (String.mk body), r)
        | none => none
      else if c == lbraceChar then
        match skipWs rest with
        | c2 :: r2 =>
          if c2 == rbraceChar then some (Value.obj [], r2)
          else
            match parseMembers fuel (c2 :: r2) with
            | some (ms, r) => some (Value.obj ms, r)
            | none => none
        | [] => none
      else if c == '[' then
        match skipWs rest with
        | c2 :: r2 =>
          if c2 == ']' then some (Value.arr [], r2)
          else
            match parseElems fuel (c2 :: r2) with
            | some (vs, r) => some (Value.arr vs, r)
            | none => none
        | [] => none
      else if c == '-' then
        match takeDigits rest with
        | ([], _) => none
        | (ds, r) =>
          if numTailBad r then none
          else some (Value.num (-(digitsToNat ds : Int)), r)
      else if c.isDigit then
        match takeDigits (c :: rest) with
        | (ds, r) =>
          if numTailBad r then none
          else some (Value.num (digitsToNat ds), r)
      else
        match c :: rest with
        | 'n' :: 'u' :: 'l' :: 'l' :: r => some (Value.null, r)
        | 't' :: 'r' :: 'u' :: 'e' :: r => some (Value.bool true, r)
        | 'f' :: 'a' :: 'l' :: 's' :: 'e' :: r => some (Value.bool false, r)
        | _ => none

/-- Parse a comma-separated run of JSON array elements up to the closing
bracket. -/
def parseElems : Nat → List Char → Option (List Value × List Char)
  | 0, _ => none
  | fuel + 1, cs =>
    match parseVal fuel cs with
    | none => none
    | some (v, rest) =>
      match skipWs rest with
      | c :: rest2 =>
        if c == ',' then
          match parseElems fuel rest2 with
          | some (vs, r) => some (v :: vs, r)
          | none => none
        else if c == ']' then some ([v], rest2)
        else none
      | [] => none

/-- Parse a comma-separated run of JSON object members up to the closing
brace. -/
def parseMembers : Nat → List Char → Option (List (String × Value) × List Char)
  | 0, _ => none
  | fuel + 1, cs =>
    match skipWs cs with
    | c :: rest =>
      if c == quoteChar then
        match parseStringBody rest with
        | none => none
        | some (key, rest2) =>
          match skipWs rest2 with
          | c2 :: rest3 =>
            if c2 == ':' then
              match parseVal fuel rest3 with
              | none => none
              | some (v, rest4) =>
                match skipWs rest4 with
                | c3 :: rest5 =>
                  if c3 == ',' then
                    match parseMembers fuel rest5 with
                    | some (ms, r) => some ((String.mk key, v) :: ms, r)
                    | none => none
                  else if c3 == rbraceChar then
                    some ([(String.mk key, v)], rest5)
                  else none
                | [] => none
            else none
          | [] => none
      else none
    | [] => none

end

/-- Modelled from the spec: JSON.parse of a whole string, succeeding only
when a single JSON value spans the full input. -/
def parseJson (s : String) : Option Value :=
  match parseVal (s.length + 1) s.data with
  | some (v, rest) => if skipWs rest = [] then some v else none
  | none => none

/-- Property read defaulting to `undefined`, as in building an object literal
from possibly-absent fields. -/
def fieldOr (p : List (String × Value)) (k : String) : Value :=
  (getField p k).getD Value.undef

/-- The `toolInput` computation of the tool-call end case: a truthy
accumulated value is parsed as JSON, keeping the raw value when parsing
fails; a falsy or absent one yields the empty object. -/
def toolInputOf (acc : List (String × Value)) : Value :=
  match getField acc "toolInput" with
  | none => Value.obj []
  | some v =>
    if truthy (some v) then
      match parseJson (jsToString v) with
      | some w => w
      | none => v
    else Value.obj []

/-- The end payload of the tool-call cases: toolName and toolCallId from the
accumulator plus the parsed-or-raw toolInput. -/
def toolEndOutput (acc : List (String × Value)) : Value :=
  Value.obj [("toolName", fieldOr acc "toolName"),
             ("toolCallId", fieldOr acc "toolCallId"),
             ("toolInput", toolInputOf acc)]

/-- JavaScript `x?.length` of the file chunk's data field. -/
def jsLengthOf (v : Option Value) : Value :=
  match v with
  | some (Value.str s) => Value.num s.length
  | some (Value.arr xs) => Value.num xs.length
  | _ => Value.undef

/-- The chunk union dispatched on by createChunkTracingTransform, carrying
exactly the payload fields the transform reads.  Payloads whose properties
are projected are records; payloads forwarded whole are single values;
`otherChunk` stands for every further ChunkType member, which the switch
leaves untouched. -/
inductive Chunk where
  | textStart : Chunk
  | textDelta (text : String) : Chunk
  | textEnd : Chunk
  | toolCallInputStreamingStart (toolName toolCallId : String) : Chunk
  | toolCallDelta (argsTextDelta : String) : Chunk
  | toolCallInputStreamingEnd : Chunk
  | toolCall (payload : Value) : Chunk
  | reasoningStart : Chunk
  | reasoningDelta (text : String) : Chunk
  | reasoningEnd : Chunk
  | responseMetadata (payload : Value) : Chunk
  | reasoningSignature (payload : Value) : Chunk
  | redactedReasoning (payload : Value) : Chunk
  | sourceChunk (payload : List (String × Value)) : Chunk
  | fileChunk (payload : List (String × Value)) : Chunk
  | toolResult (payload : List (String × Value)) : Chunk
  | toolError (payload : List (String × Value)) : Chunk
  | toolOutput (payload : Value) : Chunk
  | toolCallApproval (payload : List (String × Value)) : Chunk
  | toolCallSuspended (payload : List (String × Value)) : Chunk
  | objectChunk : Chunk
  | objectResult (object : Value) : Chunk
  | stepOutput (payload : Value) : Chunk
  | errorChunk (payload : List (String × Value)) : Chunk
  | abort (payload : Value) : Chunk
  | watch (payload : Value) : Chunk
  | tripwire (payload : Value) : Chunk
  | stepStart : Chunk
  | finish (usage : Option TokenUsage) : Chunk
  | stepFinish : Chunk
  | raw (payload : Value) : Chunk
  | startChunk : Chunk
  | otherChunk (tag : String) : Chunk

/-- The tracking side of createChunkTracingTransform's per-chunk handler:
the switch over chunk.type, driving the tracker.  The finish case models
`(chunk.payload as any)?.usage` as the optional usage record (truthy exactly
when present, since the payload types it as an object). -/
def dispatch (s : TrackerState) : Chunk → TrackerState
  | Chunk.textStart => startSpan s "text" none
  | Chunk.textDelta t => appendToAccumulator s "text" t
  | Chunk.textEnd => endCurrentSpan s (jsGet s.accumulator "text")
  | Chunk.toolCallInputStreamingStart nm id =>
      startSpan s "tool-call"
        (some [("toolName", Value.str nm), ("toolCallId", Value.str id)])
  | Chunk.toolCallDelta d => appendToAccumulator s "toolInput" d
  | Chunk.toolCallInputStreamingEnd => endCurrentSpan s (some (toolEndOutput s.accumulator))
  | Chunk.toolCall _ => endCurrentSpan s (some (toolEndOutput s.accumulator))
  | Chunk.reasoningStart => startSpan s "reasoning" none
  | Chunk.reasoningDelta t => appendToAccumulator s "text" t
  | Chunk.reasoningEnd => endCurrentSpan s (jsGet s.accumulator "text")
  | Chunk.responseMetadata p => createEventSpan s "response-metadata" p
  | Chunk.reasoningSignature p => createEventSpan s "reasoning-signature" p
  | Chunk.redactedReasoning p => createEventSpan s "redacted-reasoning" p
  | Chunk.sourceChunk p => createEventSpan s "source"
      (Value.obj [("sourceType", fieldOr p "sourceType"),
                  ("title", fieldOr p "title"),
                  ("url", fieldOr p "url")])
  | Chunk.fileChunk p => createEventSpan s "file"
      (Value.obj [("mimeType", fieldOr p "mimeType"),
                  ("size", jsLengthOf (getField p "data"))])
  | Chunk.toolResult p => createEventSpan s "tool-result"
      (Value.obj [("toolName", fieldOr p "toolName"),
                  ("toolCallId", fieldOr p "toolCallId"),
                  ("result", fieldOr p "result"),
                  ("isError", fieldOr p "isError")])
  | Chunk.toolError p => createEventSpan s "tool-error"
      (Value.obj [("toolName", fieldOr p "toolName"),
                  ("toolCallId", fieldOr p "toolCallId"),
                  ("error", fieldOr p "error")])
  | Chunk.toolOutput p => createEventSpan s "tool-output" p
  | Chunk.toolCallApproval p => createEventSpan s "tool-call-approval"
      (Value.obj [("toolName", fieldOr p "toolName"),
                  ("toolCallId", fieldOr p "toolCallId"),
                  ("args", fieldOr p "args")])
  | Chunk.toolCallSuspended p => createEventSpan s "tool-call-suspended"
      (Value.obj [("toolName", fieldOr p "toolName"),
                  ("toolCallId", fieldOr p "toolCallId")])
  | Chunk.objectChunk => if hasActiveSpan s then s else startSpan s "object" none
  | Chunk.objectResult v => endCurrentSpan s (jsOpt v)
  | Chunk.stepOutput p => createEventSpan s "step-output" p
  | Chunk.errorChunk p => createEventSpan s "error" (Value.obj [("error", fieldOr p "error")])
  | Chunk.abort p => createEventSpan s "abort" p
  | Chunk.watch p => createEventSpan s "watch" p
  | Chunk.tripwire p => createEventSpan s "tripwire" p
  | Chunk.stepStart => startStep s
  | Chunk.finish usage =>
      match usage with
      | some u => setTokenUsage s u
      | none => s
  | Chunk.stepFinish => endStep s none
  | Chunk.raw _ => s
  | Chunk.startChunk => s
  | Chunk.otherChunk _ => s

/-- One invocation of the transform's per-chunk handler: with no tracker the
chunk is enqueued immediately; otherwise the dispatch runs first and the
chunk is enqueued unchanged afterwards. -/
def transformChunk (tracker : Option TrackerState) (c : Chunk) :
    Option TrackerState × List Chunk :=
  match tracker with
  | none => (none, [c])
  | some ts => (some (dispatch ts c), [c])

/-- Run the transform over a whole input sequence, collecting the emitted
output sequence. -/
def runTransform (tracker : Option TrackerState) : List Chunk → Option TrackerState × List Chunk
  | [] => (tracker, [])
  | c :: rest =>
    let first := transformChunk tracker c
    let later := runTransform first.1 rest
    (later.1, first.2 ++ later.2)

/-- The tracker state reached by dispatching a chunk sequence. -/
def runDispatch (s : TrackerState) (cs : List Chunk) : TrackerState :=
  cs.foldl dispatch s

/-- One call to a public ModelSpanTracker operation, with its arguments. -/
inductive TrackerOp where
  | opStartStep : TrackerOp
  | opEndStep (finishReason : Option String) : TrackerOp
  | opSetTokenUsage (u : TokenUsage) : TrackerOp
  | opStartSpan (chunkType : String) (initialData : Option (List (String × Value))) : TrackerOp
  | opUpdateAccumulator (updates : List (String × Value)) : TrackerOp
  | opAppendToAccumulator (field text : String) : TrackerOp
  | opEndCurrentSpan (output : Option Value) : TrackerOp
  | opCreateEventSpan (chunkType : String) (output : Value) : TrackerOp

/-- Apply one tracker operation. -/
def applyOp (s : TrackerState) : TrackerOp → TrackerState
  | TrackerOp.opStartStep => startStep s
  | TrackerOp.opEndStep r => endStep s r
  | TrackerOp.opSetTokenUsage u => setTokenUsage s u
  | TrackerOp.opStartSpan t d => startSpan s t d
  | TrackerOp.opUpdateAccumulator u => updateAccumulator s u
  | TrackerOp.opAppendToAccumulator f t => appendToAccumulator s f t
  | TrackerOp.opEndCurrentSpan o => endCurrentSpan s o
  | TrackerOp.opCreateEventSpan t o => createEventSpan s t o

/-- Apply a sequence of tracker operations in order. -/
def runOps (s : TrackerState) : List TrackerOp → TrackerState
  | [] => s
  | op :: ops => runOps (applyOp s op) ops

/-- Attribute of the span stored at index `i`, defaulting to `undefined`. -/
def attrAt (s : TrackerState) (i : Nat) (k : String) : Value :=
  match s.spans[i]? with
  | some r => (getField r.attributes k).getD Value.undef
  | none => Value.undef

/-- Output payload of the span stored at index `i`. -/
def outputAt (s : TrackerState) (i : Nat) : Option Value :=
  match s.spans[i]? with
  | some r => r.output
  | none => none

/-- Number of end() calls made on the span stored at index `i`. -/
def endCountAt (spans : List SpanRecord) (i : Nat) : Nat :=
  match spans[i]? with
  | some r => r.endCount
  | none => 0

/-- The sequenceNumber attributes of the completed chunk spans, in completion
order. -/
def seqNumbers (s : TrackerState) : List Value :=
  s.completedChunkSpans.map (fun i => attrAt s i "sequenceNumber")

/-- A freshly constructed enabled tracker (a generation span was supplied). -/
def initTracker : TrackerState := mkTracker (some ())

/-- Concatenation of a tool-call or text delta sequence, in arrival order. -/
def joinAll : List String → String
  | [] => ""
  | d :: ds => d ++ joinAll ds

/-- The chunk tags whose dispatch is a single createEventSpan call. -/
inductive EventChunk where
  | responseMetadata (p : Value) : EventChunk
  | reasoningSignature (p : Value) : EventChunk
  | redactedReasoning (p : Value) : EventChunk
  | sourceChunk (p : List (String × Value)) : EventChunk
  | fileChunk (p : List (String × Value)) : EventChunk
  | toolResult (p : List (String × Value)) : EventChunk
  | toolError (p : List (String × Value)) : EventChunk
  | toolOutput (p : Value) : EventChunk
  | toolCallApproval (p : List (String × Value)) : EventChunk
  | toolCallSuspended (p : List (String × Value)) : EventChunk
  | stepOutput (p : Value) : EventChunk
  | errorChunk (p : List (String × Value)) : EventChunk
  | abort (p : Value) : EventChunk
  | watch (p : Value) : EventChunk
  | tripwire (p : Value) : EventChunk

/-- Embed an event chunk back into the chunk union. -/
def EventChunk.toChunk : EventChunk → Chunk
  | EventChunk.responseMetadata p => Chunk.responseMetadata p
  | EventChunk.reasoningSignature p => Chunk.reasoningSignature p
  | EventChunk.redactedReasoning p => Chunk.redactedReasoning p
  | EventChunk.sourceChunk p => Chunk.sourceChunk p
  | EventChunk.fileChunk p => Chunk.fileChunk p
  | EventChunk.toolResult p => Chunk.toolResult p
  | EventChunk.toolError p => Chunk.toolError p
  | EventChunk.toolOutput p => Chunk.toolOutput p
  | EventChunk.toolCallApproval p => Chunk.toolCallApproval p
  | EventChunk.toolCallSuspended p => Chunk.toolCallSuspended p
  | EventChunk.stepOutput p => Chunk.stepOutput p
  | EventChunk.errorChunk p => Chunk.errorChunk p
  | EventChunk.abort p => Chunk.abort p
  | EventChunk.watch p => Chunk.watch p
  | EventChunk.tripwire p => Chunk.tripwire p

/-- One non-interleaved chunk-level semantic unit inside a step: a complete
multi-part group (text, reasoning, streamed tool call, or partial-object run)
or a single instant event chunk.  `objectUnit k` stands for `1 + k` partial
object chunks followed by the object-result terminator. -/
inductive SpanUnit where
  | textUnit (deltas : List String) : SpanUnit
  | reasoningUnit (deltas : List String) : SpanUnit
  | toolUnit (toolName toolCallId : String) (deltas : List String) : SpanUnit
  | objectUnit (extraObjects : Nat) (final : Value) : SpanUnit
  | eventUnit (e : EventChunk) : SpanUnit

/-- The chunk sequence of one semantic unit. -/
def SpanUnit.chunks : SpanUnit → List Chunk
  | SpanUnit.textUnit ds =>
      Chunk.textStart :: (ds.map Chunk.textDelta ++ [Chunk.textEnd])
  | SpanUnit.reasoningUnit ds =>
      Chunk.reasoningStart :: (ds.map Chunk.reasoningDelta ++ [Chunk.reasoningEnd])
  | SpanUnit.toolUnit nm id ds =>
      Chunk.toolCallInputStreamingStart nm id ::
        (ds.map Chunk.toolCallDelta ++ [Chunk.toolCallInputStreamingEnd])
  | SpanUnit.objectUnit k fv =>
      Chunk.objectChunk :: (List.replicate k Chunk.objectChunk ++ [Chunk.objectResult fv])
  | SpanUnit.eventUnit e => [e.toChunk]

/-- The chunk sequence of a run of semantic units. -/
def unitsChunks : List SpanUnit → List Chunk
  | [] => []
  | u :: us => u.chunks ++ unitsChunks us

/-- A slot holding an open span handle points into the store, at a span that
has not yet received an end() call. -/
def SlotOk (spans : List SpanRecord) (slot : Option Nat) : Prop :=
  ∀ i, slot = some i → i < spans.length ∧ endCountAt spans i = 0

/-- Store/slot sanity: every span was ended at most once, and the open step
and open chunk slots point at distinct un-ended spans of the store. -/
def InvCore (spans : List SpanRecord) (stepSlot chunkSlot : Option Nat) : Prop :=
  (∀ r ∈ spans, r.endCount ≤ 1) ∧
  SlotOk spans stepSlot ∧
  SlotOk spans chunkSlot ∧
  (∀ i j, stepSlot = some i → chunkSlot = some j → i ≠ j)

/-- Tracker/store sanity invariant. -/
def Inv (s : TrackerState) : Prop :=
  InvCore s.spans s.currentStepSpan s.currentChunkSpan

/-- A tracker in the middle of a step, between chunk-level semantic units:
enabled, a step open, no chunk span open, and all completed-span indices
inside the store. -/
def StepReady (s : TrackerState) : Prop :=
  s.isEnabled = true ∧
  (∃ i, s.currentStepSpan = some i) ∧
  s.currentChunkSpan = none ∧
  (∀ j ∈ s.completedChunkSpans, j < s.spans.length)

/-- The observable effect of one non-interleaved semantic unit on a
step-ready tracker: exactly one new chunk span is appended and completed,
carrying the pre-unit sequence counter as its sequenceNumber attribute, the
counter advances by one, earlier store entries are untouched, and the step
stays open. -/
def UnitEffect (s s2 : TrackerState) : Prop :=
  s2.isEnabled = s.isEnabled ∧
  s2.currentStepSpan = s.currentStepSpan ∧
  s2.currentChunkSpan = none ∧
  s2.chunkSequence = s.chunkSequence + 1 ∧
  s2.completedChunkSpans = s.completedChunkSpans ++ [s.spans.length] ∧
  s2.spans.length = s.spans.length + 1 ∧
  (∀ j, j < s.spans.length → s2.spans[j]? = s.spans[j]?) ∧
  attrAt s2 s.spans.length "sequenceNumber" = Value.num s.chunkSequence

theorem modifySpan_length (spans : List SpanRecord) (i : Nat) (f : SpanRecord → SpanRecord) :
    (modifySpan spans i f).length = spans.length := by
  induction spans generalizing i with
  | nil => rfl
  | cons a l ih =>
    cases i with
    | zero => rfl
    | succ n => simp [modifySpan, ih]

theorem getSpan_modify_ne (spans : List SpanRecord) (i j : Nat) (f : SpanRecord → SpanRecord)
    (h : j ≠ i) : (modifySpan spans i f)[j]? = spans[j]? := by
  induction spans generalizing i j with
  | nil => rfl
  | cons a l ih =>
    cases i with
    | zero =>
      cases j with
      | zero => exact absurd rfl h
      | succ m => simp [modifySpan]
    | succ n =>
      cases j with
      | zero => simp [modifySpan]
      | succ m => simpa [modifySpan] using ih n m (by omega)

theorem getSpan_modify_self (spans : List SpanRecord) (i : Nat) (f : SpanRecord → SpanRecord) :
    (modifySpan spans i f)[i]? = (spans[i]?).map f := by
  induction spans generalizing i with
  | nil => rfl
  | cons a l ih =>
    cases i with
    | zero => simp [modifySpan]
    | succ n => simpa [modifySpan] using ih n

theorem mem_modifySpan (spans : List SpanRecord) (i : Nat) (f : SpanRecord → SpanRecord)
    (r : SpanRecord) (h : r ∈ modifySpan spans i f) :
    r ∈ spans ∨ ∃ r0, spans[i]? = some r0 ∧ r = f r0 := by
  induction spans generalizing i with
  | nil => simp [modifySpan] at h
  | cons a l ih =>
    cases i with
    | zero =>
      simp only [modifySpan, List.mem_cons] at h
      rcases h with h | h
      · exact Or.inr ⟨a, by simp, h⟩
      · exact Or.inl (List.mem_cons_of_mem _ h)
    | succ n =>
      simp only [modifySpan, List.mem_cons] at h
      rcases h with h | h
      · exact Or.inl (by simp [h])
      · rcases ih n h with h1 | ⟨r0, hr0, hr⟩
        · exact Or.inl (List.mem_cons_of_mem _ h1)
        · exact Or.inr ⟨r0, by simpa using hr0, hr⟩

theorem getSpan_append_lt (spans rs : List SpanRecord) (i : Nat) (h : i < spans.length) :
    (spans ++ rs)[i]? = spans[i]? := by
  rw [List.getElem?_append]
  simp [h]

theorem getSpan_append_self (spans : List SpanRecord) (r : SpanRecord) :
    (spans ++ [r])[spans.length]? = some r := by
  rw [List.getElem?_append]
  simp

theorem endCountAt_modify_ne (spans : List SpanRecord) (i j : Nat) (f : SpanRecord → SpanRecord)
    (h : j ≠ i) : endCountAt (modifySpan spans i f) j = endCountAt spans j := by
  simp [endCountAt, getSpan_modify_ne spans i j f h]

theorem endCountAt_keepEnd (spans : List SpanRecord) (i j : Nat) (f : SpanRecord → SpanRecord)
    (hf : ∀ r, (f r).endCount = r.endCount) :
    endCountAt (modifySpan spans i f) j = endCountAt spans j := by
  by_cases hji : j = i
  · subst hji
    simp only [endCountAt, getSpan_modify_self spans j f]
    cases spans[j]? <;> simp [hf]
  · exact endCountAt_modify_ne spans i j f hji

theorem endCountAt_append_lt (spans rs : List SpanRecord) (i : Nat) (h : i < spans.length) :
    endCountAt (spans ++ rs) i = endCountAt spans i := by
  simp [endCountAt, getSpan_append_lt spans rs i h]

theorem endCountAt_append_self (spans : List SpanRecord) (r : SpanRecord) :
    endCountAt (spans ++ [r]) spans.length = r.endCount := by
  simp [endCountAt, getSpan_append_self spans r]

theorem endCountAt_update (spans : List SpanRecord) (i j : Nat) (attrs : List (String × Value)) :
    endCountAt (updateSpanAt spans i attrs) j = endCountAt spans j :=
  endCountAt_keepEnd spans i j _ (fun _ => rfl)

theorem applyOp_disabled (s : TrackerState) (op : TrackerOp) (h : s.isEnabled = false) :
    applyOp s op = s := by
  cases op <;>
    simp [applyOp, startStep, endStep, setTokenUsage, startSpan, updateAccumulator,
          appendToAccumulator, endCurrentSpan, createEventSpan, h]

theorem runOps_disabled (ops : List TrackerOp) (s : TrackerState) (h : s.isEnabled = false) :
    runOps s ops = s := by
  induction ops with
  | nil => rfl
  | cons op ops ih =>
    rw [runOps, applyOp_disabled s op h]
    exact ih

/-- C1: the transform forwards every input chunk sequence unchanged,
element-for-element and in order, with or without a tracker. -/
theorem c1_passthrough_identity (tracker : Option TrackerState) (cs : List Chunk) :
    (runTransform tracker cs).2 = cs := by
  induction cs generalizing tracker with
  | nil => rfl
  | cons c rest ih =>
    cases tracker with
    | none => simpa [runTransform, transformChunk] using ih none
    | some ts => simpa [runTransform, transformChunk] using ih (some (dispatch ts c))

/-- C2: a tracker constructed with no generation-span handle is inert: every
sequence of operation calls leaves the whole state (span store and
backend-call counter included) unchanged, and getCompletedSpans stays
empty. -/
theorem c2_disabled_tracker_noop (ops : List TrackerOp) :
    runOps (mkTracker none) ops = mkTracker none ∧
    getCompletedSpans (runOps (mkTracker none) ops) = [] := by
  have h := runOps_disabled ops (mkTracker none) rfl
  exact ⟨h, by rw [h]; rfl⟩

theorem slotOk_none (spans : List SpanRecord) : SlotOk spans none := by
  intro i hi
  cases hi

theorem slotOk_some_iff (spans : List SpanRecord) (i : Nat) :
    SlotOk spans (some i) ↔ i < spans.length ∧ endCountAt spans i = 0 := by
  constructor
  · intro h
    exact h i rfl
  · intro h j hj
    cases hj
    exact h

theorem endCountAt_eq_zero (spans : List SpanRecord) (i : Nat) (r : SpanRecord)
    (hr : spans[i]? = some r) (h : endCountAt spans i = 0) : r.endCount = 0 := by
  simpa [endCountAt, hr] using h

theorem mem_updateSpanAt_le (spans : List SpanRecord) (i : Nat) (attrs : List (String × Value))
    (h1 : ∀ r ∈ spans, r.endCount ≤ 1) :
    ∀ r ∈ updateSpanAt spans i attrs, r.endCount ≤ 1 := by
  intro r hr
  rcases mem_modifySpan spans i _ r hr with hmem | ⟨r0, hr0, hreq⟩
  · exact h1 r hmem
  · subst hreq
    exact h1 r0 (List.getElem?_mem hr0)

theorem mem_endSpanAt_le (spans : List SpanRecord) (i : Nat) (o : Option Value)
    (h1 : ∀ r ∈ spans, r.endCount ≤ 1) (hi : endCountAt spans i = 0) :
    ∀ r ∈ endSpanAt spans i o, r.endCount ≤ 1 := by
  intro r hr
  rcases mem_modifySpan spans i _ r hr with hmem | ⟨r0, hr0, hreq⟩
  · exact h1 r hmem
  · subst hreq
    have h0 : r0.endCount = 0 := endCountAt_eq_zero spans i r0 hr0 hi
    simp [h0]

theorem invCore_startStep (spans : List SpanRecord) (chunkSlot : Option Nat) (r : SpanRecord)
    (stepSlot : Option Nat) (h : InvCore spans stepSlot chunkSlot) (hr : r.endCount = 0) :
    InvCore (spans ++ [r]) (some spans.length) chunkSlot := by
  obtain ⟨h1, _, h3, _⟩ := h
  refine ⟨?_, ?_, ?_, ?_⟩
  · intro q hq
    rcases List.mem_append.mp hq with hq | hq
    · exact h1 q hq
    · simp at hq
      subst hq
      omega
  · rw [slotOk_some_iff]
    refine ⟨by simp, ?_⟩
    rw [endCountAt_append_self]
    exact hr
  · intro j hj
    obtain ⟨hlt, hec⟩ := h3 j hj
    exact ⟨by simp; omega, by rw [endCountAt_append_lt _ _ _ hlt]; exact hec⟩
  · intro i j hi hj
    cases hi
    obtain ⟨hlt, _⟩ := h3 j hj
    omega

theorem invCore_newChunk (spans : List SpanRecord) (stepId : Nat) (chunkSlot : Option Nat)
    (r : SpanRecord) (h : InvCore spans (some stepId) chunkSlot) (hr : r.endCount = 0) :
    InvCore (spans ++ [r]) (some stepId) (some spans.length) := by
  obtain ⟨h1, h2, _, _⟩ := h
  obtain ⟨hslt, hsec⟩ := h2 stepId rfl
  refine ⟨?_, ?_, ?_, ?_⟩
  · intro q hq
    rcases List.mem_append.mp hq with hq | hq
    · exact h1 q hq
    · simp at hq
      subst hq
      omega
  · rw [slotOk_some_iff]
    exact ⟨by simp; omega, by rw [endCountAt_append_lt _ _ _ hslt]; exact hsec⟩
  · rw [slotOk_some_iff]
    refine ⟨by simp, ?_⟩
    rw [endCountAt_append_self]
    exact hr
  · intro i j hi hj
    cases hi
    cases hj
    omega

theorem invCore_newEvent (spans : List SpanRecord) (stepId : Nat) (chunkSlot : Option Nat)
    (r : SpanRecord) (h : InvCore spans (some stepId) chunkSlot) (hr : r.endCount = 0) :
    InvCore (spans ++ [r]) (some stepId) chunkSlot := by
  obtain ⟨h1, h2, h3, h4⟩ := h
  obtain ⟨hslt, hsec⟩ := h2 stepId rfl
  refine ⟨?_, ?_, ?_, h4⟩
  · intro q hq
    rcases List.mem_append.mp hq with hq | hq
    · exact h1 q hq
    · simp at hq
      subst hq
      omega
  · rw [slotOk_some_iff]
    exact ⟨by simp; omega, by rw [endCountAt_append_lt _ _ _ hslt]; exact hsec⟩
  · intro j hj
    obtain ⟨hlt, hec⟩ := h3 j hj
    exact ⟨by simp; omega, by rw [endCountAt_append_lt _ _ _ hlt]; exact hec⟩

theorem invCore_endStep (spans spans1 : List SpanRecord) (i : Nat) (chunkSlot : Option Nat)
    (h : InvCore spans (some i) chunkSlot)
    (hlen : spans1.length = spans.length)
    (hec : ∀ j, endCountAt spans1 j = endCountAt spans j)
    (hmem : ∀ r ∈ spans1, r.endCount ≤ 1) :
    InvCore (endSpanAt spans1 i none) none chunkSlot := by
  obtain ⟨_, h2, h3, h4⟩ := h
  obtain ⟨hslt, hsec⟩ := h2 i rfl
  refine ⟨?_, slotOk_none _, ?_, ?_⟩
  · exact mem_endSpanAt_le spans1 i none hmem (by rw [hec]; exact hsec)
  · intro j hj
    obtain ⟨hlt, hecj⟩ := h3 j hj
    have hji : j ≠ i := fun hh => h4 i j rfl hj hh.symm
    constructor
    · rw [endSpanAt, modifySpan_length, hlen]
      exact hlt
    · rw [endSpanAt, endCountAt_modify_ne _ _ _ _ hji, hec]
      exact hecj
  · intro a b ha _
    cases ha

theorem invCore_endChunk (spans : List SpanRecord) (i : Nat) (stepSlot : Option Nat)
    (o : Option Value) (h : InvCore spans stepSlot (some i)) :
    InvCore (endSpanAt spans i o) stepSlot none := by
  obtain ⟨h1, h2, h3, h4⟩ := h
  obtain ⟨hclt, hcec⟩ := h3 i rfl
  refine ⟨mem_endSpanAt_le spans i o h1 hcec, ?_, slotOk_none _, ?_⟩
  · intro j hj
    obtain ⟨hlt, hecj⟩ := h2 j hj
    have hji : j ≠ i := h4 j i hj rfl
    constructor
    · rw [endSpanAt, modifySpan_length]
      exact hlt
    · rw [endSpanAt, endCountAt_modify_ne _ _ _ _ hji]
      exact hecj
  · intro a b _ hb
    cases hb

theorem inv_startStep (s : TrackerState) (h : Inv s) : Inv (startStep s) := by
  cases he : s.isEnabled with
  | false => simpa [startStep, he] using h
  | true =>
    simpa [Inv, startStep, he] using
      invCore_startStep s.spans s.currentChunkSpan (stepRecordOf s.stepIndex)
        s.currentStepSpan h rfl

theorem inv_setTokenUsage (s : TrackerState) (u : TokenUsage) (h : Inv s) :
    Inv (setTokenUsage s u) := by
  cases he : s.isEnabled with
  | false => simpa [setTokenUsage, he] using h
  | true => simpa [Inv, setTokenUsage, he] using h

theorem inv_updateAccumulator (s : TrackerState) (u : List (String × Value)) (h : Inv s) :
    Inv (updateAccumulator s u) := by
  cases he : s.isEnabled with
  | false => simpa [updateAccumulator, he] using h
  | true => simpa [Inv, updateAccumulator, he] using h

theorem inv_appendToAccumulator (s : TrackerState) (f t : String) (h : Inv s) :
    Inv (appendToAccumulator s f t) := by
  cases he : s.isEnabled with
  | false => simpa [appendToAccumulator, he] using h
  | true =>
    rcases hg : getField s.accumulator f with _ | v
    · simpa [Inv, appendToAccumulator, he, hg] using h
    · cases v <;> simpa [Inv, appendToAccumulator, he, hg] using h

theorem inv_startSpan (s : TrackerState) (ct : String) (d : Option (List (String × Value)))
    (h : Inv s) : Inv (startSpan s ct d) := by
  cases he : s.isEnabled with
  | false => simpa [startSpan, he] using h
  | true =>
    rcases hstep : s.currentStepSpan with _ | i
    · have h2 : InvCore (s.spans ++ [stepRecordOf s.stepIndex]) (some s.spans.length)
          s.currentChunkSpan :=
        invCore_startStep s.spans s.currentChunkSpan (stepRecordOf s.stepIndex)
          s.currentStepSpan h rfl
      simpa [Inv, startSpan, he, hstep, startStep] using
        invCore_newChunk (s.spans ++ [stepRecordOf s.stepIndex]) s.spans.length
          s.currentChunkSpan (chunkRecordOf ct s.spans.length 0) h2 rfl
    · have h2 : InvCore s.spans (some i) s.currentChunkSpan := hstep ▸ h
      simpa [Inv, startSpan, he, hstep] using
        invCore_newChunk s.spans i s.currentChunkSpan
          (chunkRecordOf ct i s.chunkSequence) h2 rfl

theorem inv_createEventSpan (s : TrackerState) (ct : String) (o : Value) (h : Inv s) :
    Inv (createEventSpan s ct o) := by
  cases he : s.isEnabled with
  | false => simpa [createEventSpan, he] using h
  | true =>
    rcases hstep : s.currentStepSpan with _ | i
    · have h2 : InvCore (s.spans ++ [stepRecordOf s.stepIndex]) (some s.spans.length)
          s.currentChunkSpan :=
        invCore_startStep s.spans s.currentChunkSpan (stepRecordOf s.stepIndex)
          s.currentStepSpan h rfl
      simpa [Inv, createEventSpan, he, hstep, startStep] using
        invCore_newEvent (s.spans ++ [stepRecordOf s.stepIndex]) s.spans.length
          s.currentChunkSpan (eventRecordOf ct s.spans.length 0 o) h2 rfl
    · have h2 : InvCore s.spans (some i) s.currentChunkSpan := hstep ▸ h
      simpa [Inv, createEventSpan, he, hstep] using
        invCore_newEvent s.spans i s.currentChunkSpan
          (eventRecordOf ct i s.chunkSequence o) h2 rfl

theorem inv_endCurrentSpan (s : TrackerState) (o : Option Value) (h : Inv s) :
    Inv (endCurrentSpan s o) := by
  cases he : s.isEnabled with
  | false => simpa [endCurrentSpan, he] using h
  | true =>
    rcases hc : s.currentChunkSpan with _ | i
    · simpa [endCurrentSpan, he, hc] using h
    · have h2 : InvCore s.spans s.currentStepSpan (some i) := hc ▸ h
      simpa [Inv, endCurrentSpan, he, hc] using
        invCore_endChunk s.spans i s.currentStepSpan
          (some (o.getD (Value.obj s.accumulator))) h2

theorem inv_endStep (s : TrackerState) (fr : Option String) (h : Inv s) : Inv (endStep s fr) := by
  cases he : s.isEnabled with
  | false => simpa [endStep, he] using h
  | true =>
    rcases hstep : s.currentStepSpan with _ | i
    · simpa [endStep, he, hstep] using h
    · have h2 : InvCore s.spans (some i) s.currentChunkSpan := hstep ▸ h
      rcases hp : s.pendingTokenUsage with _ | u
      · by_cases hf : frTruthy fr
        · simpa [Inv, endStep, he, hstep, hp, hf] using
            invCore_endStep s.spans (updateSpanAt s.spans i [("finishReason", optStrV fr)]) i
              s.currentChunkSpan h2 (by rw [updateSpanAt, modifySpan_length])
              (fun j => endCountAt_update s.spans i j _)
              (mem_updateSpanAt_le s.spans i _ h2.1)
        · simpa [Inv, endStep, he, hstep, hp, hf] using
            invCore_endStep s.spans s.spans i s.currentChunkSpan h2 rfl (fun _ => rfl) h2.1
      · simpa [Inv, endStep, he, hstep, hp] using
          invCore_endStep s.spans (updateSpanAt s.spans i (usageAttrs u fr)) i
            s.currentChunkSpan h2 (by rw [updateSpanAt, modifySpan_length])
            (fun j => endCountAt_update s.spans i j _)
            (mem_updateSpanAt_le s.spans i _ h2.1)

theorem inv_applyOp (s : TrackerState) (op : TrackerOp) (h : Inv s) : Inv (applyOp s op) := by
  cases op with
  | opStartStep => exact inv_startStep s h
  | opEndStep r => exact inv_endStep s r h
  | opSetTokenUsage u => exact inv_setTokenUsage s u h
  | opStartSpan t d => exact inv_startSpan s t d h
  | opUpdateAccumulator u => exact inv_updateAccumulator s u h
  | opAppendToAccumulator f t => exact inv_appendToAccumulator s f t h
  | opEndCurrentSpan o => exact inv_endCurrentSpan s o h
  | opCreateEventSpan t o => exact inv_createEventSpan s t o h

theorem inv_runOps (s : TrackerState) (ops : List TrackerOp) (h : Inv s) :
    Inv (runOps s ops) := by
  induction ops generalizing s with
  | nil => exact h
  | cons op ops ih => exact ih _ (inv_applyOp s op h)

theorem inv_mkTracker (m : Option Unit) : Inv (mkTracker m) :=
  ⟨fun r hr => absurd hr (List.not_mem_nil r), slotOk_none _, slotOk_none _,
   fun i j hi _ => by cases hi⟩

/-- C9: ending when nothing is open is a complete no-op (any tracker state,
any argument: no backend call, no completed-spans append, state untouched),
and along every operation sequence from a fresh tracker no span handle ever
receives a second end() call. -/
theorem c9_end_safety :
    (∀ (s : TrackerState) (o : Option Value), s.currentChunkSpan = none →
       endCurrentSpan s o = s) ∧
    (∀ (s : TrackerState) (fr : Option String), s.currentStepSpan = none →
       endStep s fr = s) ∧
    (∀ (m : Option Unit) (ops : List TrackerOp),
       ∀ r ∈ (runOps (mkTracker m) ops).spans, r.endCount ≤ 1) := by
  refine ⟨?_, ?_, ?_⟩
  · intro s o hnone
    simp [endCurrentSpan, hnone]
  · intro s fr hnone
    simp [endStep, hnone]
  · intro m ops
    exact (inv_runOps (mkTracker m) ops (inv_mkTracker m)).1

/-- Witness for C9 at a concrete state: the fresh enabled tracker has no open
chunk span and no open step, so both end operations leave it unchanged. -/
theorem c9_end_safety_witness :
    endCurrentSpan initTracker none = initTracker ∧
    endStep initTracker none = initTracker :=
  ⟨c9_end_safety.1 initTracker none rfl, c9_end_safety.2.1 initTracker none rfl⟩

theorem getField_setField_self (r : List (String × Value)) (k : String) (v : Value) :
    getField (setField r k v) k = some v := by
  induction r with
  | nil => simp [setField, getField]
  | cons a l ih =>
    obtain ⟨k1, v1⟩ := a
    by_cases hk : k1 = k <;> simp [setField, getField, hk, ih]

theorem getField_setField_ne (r : List (String × Value)) (k k2 : String) (v : Value)
    (h : k2 ≠ k) : getField (setField r k v) k2 = getField r k2 := by
  induction r with
  | nil => simp [setField, getField, Ne.symm h]
  | cons a l ih =>
    obtain ⟨k1, v1⟩ := a
    by_cases hk : k1 = k
    · subst hk
      simp [setField, getField, Ne.symm h]
    · by_cases hk2 : k1 = k2 <;> simp [setField, getField, hk, hk2, h, ih]

theorem setField_setField (r : List (String × Value)) (k : String) (v w : Value) :
    setField (setField r k v) k w = setField r k w := by
  induction r with
  | nil => simp [setField]
  | cons a l ih =>
    obtain ⟨k1, v1⟩ := a
    by_cases hk : k1 = k <;> simp [setField, hk, ih]

theorem setField_same (r : List (String × Value)) (k : String) (v : Value)
    (h : getField r k = some v) : setField r k v = r := by
  induction r with
  | nil => simp [getField] at h
  | cons a l ih =>
    obtain ⟨k1, v1⟩ := a
    by_cases hk : k1 = k
    · subst hk
      simp [getField] at h
      simp [setField, h]
    · simp [getField, hk] at h
      simp [setField, hk, ih h]

/-- C6: for an enabled tracker, the text-start / text-delta("ab") /
text-delta("cd") / text-end sequence yields exactly one ended chunk span with
output "abcd"; in general appendToAccumulator concatenates onto the named
field in arrival order, treating an absent field as the empty string. -/
theorem c6_accumulation :
    ((runDispatch initTracker
        [Chunk.textStart, Chunk.textDelta "ab", Chunk.textDelta "cd",
         Chunk.textEnd]).completedChunkSpans = [1] ∧
     outputAt (runDispatch initTracker
        [Chunk.textStart, Chunk.textDelta "ab", Chunk.textDelta "cd",
         Chunk.textEnd]) 1 = some (Value.str "abcd")) ∧
    (∀ (s : TrackerState) (f t : String), s.isEnabled = true →
       getField s.accumulator f = none →
       (appendToAccumulator s f t).accumulator =
         setField s.accumulator f (Value.str t)) ∧
    (∀ (s : TrackerState) (f a t : String), s.isEnabled = true →
       getField s.accumulator f = some (Value.str a) →
       (appendToAccumulator s f t).accumulator =
         setField s.accumulator f (Value.str (a ++ t))) := by
  refine ⟨⟨rfl, rfl⟩, ?_, ?_⟩
  · intro s f t he hg
    simp [appendToAccumulator, he, hg]
  · intro s f a t he hg
    simp [appendToAccumulator, he, hg, jsToString]

/-- Witness for C6: the general append law applied at the fresh enabled
tracker, whose accumulator has no text field yet. -/
theorem c6_accumulation_witness :
    (appendToAccumulator initTracker "text" "ab").accumulator =
      setField initTracker.accumulator "text" (Value.str "ab") :=
  c6_accumulation.2.1 initTracker "text" "ab" rfl rfl

/-- C7: usage carried by a finish chunk is attached to the step span when
step-finish ends it (all three fields present); step-finish without a prior
finish ends the step with only its original stepIndex attribute; and
setTokenUsage overwrites any previous pending value (last write wins). -/
theorem c7_deferred_usage_attachment :
    (attrAt (runDispatch initTracker
        [Chunk.stepStart,
         Chunk.finish (some { inputTokens := some 10, outputTokens := some 5,
                              totalTokens := some 15 }),
         Chunk.stepFinish]) 0 "inputTokens" = Value.num 10 ∧
     attrAt (runDispatch initTracker
        [Chunk.stepStart,
         Chunk.finish (some { inputTokens := some 10, outputTokens := some 5,
                              totalTokens := some 15 }),
         Chunk.stepFinish]) 0 "outputTokens" = Value.num 5 ∧
     attrAt (runDispatch initTracker
        [Chunk.stepStart,
         Chunk.finish (some { inputTokens := some 10, outputTokens := some 5,
                              totalTokens := some 15 }),
         Chunk.stepFinish]) 0 "totalTokens" = Value.num 15 ∧
     endCountAt (runDispatch initTracker
        [Chunk.stepStart,
         Chunk.finish (some { inputTokens := some 10, outputTokens := some 5,
                              totalTokens := some 15 }),
         Chunk.stepFinish]).spans 0 = 1) ∧
    (((runDispatch initTracker [Chunk.stepStart, Chunk.stepFinish]).spans[0]?).map
        SpanRecord.attributes = some [("stepIndex", Value.num 0)] ∧
     endCountAt (runDispatch initTracker [Chunk.stepStart, Chunk.stepFinish]).spans 0 = 1) ∧
    (∀ (s : TrackerState) (u1 u2 : TokenUsage),
       setTokenUsage (setTokenUsage s u1) u2 = setTokenUsage s u2) := by
  refine ⟨⟨rfl, rfl, rfl, rfl⟩, ⟨rfl, rfl⟩, ?_⟩
  intro s u1 u2
  cases he : s.isEnabled <;> simp [setTokenUsage, he]

/-- C10: dispatching text-start immediately followed by text-end ends the
span with the empty accumulator object (not the empty string) as output,
because the dispatcher passes the absent text field to endCurrentSpan, which
substitutes the whole accumulator. -/
theorem c10_empty_text_output :
    ((runDispatch initTracker [Chunk.textStart, Chunk.textEnd]).completedChunkSpans = [1] ∧
     outputAt (runDispatch initTracker [Chunk.textStart, Chunk.textEnd]) 1 =
       some (Value.obj []) ∧
     Value.obj [] ≠ Value.str "") ∧
    (∀ s : TrackerState, jsGet s.accumulator "text" = none →
       dispatch s Chunk.textEnd = endCurrentSpan s none) := by
  refine ⟨⟨rfl, rfl, fun h => Value.noConfusion h⟩, ?_⟩
  intro s hnone
  simp [dispatch, hnone]

/-- Witness for C10: the fresh enabled tracker has an empty accumulator, so
its text-end dispatch is an endCurrentSpan call with an undefined output. -/
theorem c10_empty_text_output_witness :
    dispatch initTracker Chunk.textEnd = endCurrentSpan initTracker none :=
  c10_empty_text_output.2 initTracker rfl

/-- C3 counterexample: a single already-complete tool-call chunk dispatched
with no open chunk span produces no completed chunk span at all (the whole
tracker state, span store included, is untouched), contradicting the claim
that it converges on a completed span shaped \x7btoolName, toolCallId,
toolInput\x7d. -/
theorem c3_counterexample :
    runDispatch initTracker
        [Chunk.toolCall (Value.obj [("toolName", Value.str "calc"),
                                    ("toolCallId", Value.str "1"),
                                    ("args", Value.obj [("x", Value.num 1)])])] =
      initTracker ∧
    (runDispatch initTracker
        [Chunk.toolCall (Value.obj [("toolName", Value.str "calc"),
                                    ("toolCallId", Value.str "1"),
                                    ("args", Value.obj [("x", Value.num 1)])])]).completedChunkSpans
      = [] ∧
    (runDispatch initTracker
        [Chunk.toolCall (Value.obj [("toolName", Value.str "calc"),
                                    ("toolCallId", Value.str "1"),
                                    ("args", Value.obj [("x", Value.num 1)])])]).spans = [] :=
  ⟨rfl, rfl, rfl⟩

/-- C3 (amended): the tool-call tag is dispatched identically to
tool-call-input-streaming-end, finalizing an already-open streamed tool-call
span from the accumulator and never reading the chunk's own payload; with no
open chunk span it is a complete no-op, so only the streamed case produces
the \x7btoolName, toolCallId, toolInput\x7d span (and a trailing tool-call
chunk after the streamed end changes nothing). -/
theorem c3_tool_call_amended :
    (∀ (s : TrackerState) (p : Value),
       dispatch s (Chunk.toolCall p) = dispatch s Chunk.toolCallInputStreamingEnd) ∧
    (∀ (s : TrackerState) (p : Value), s.currentChunkSpan = none →
       dispatch s (Chunk.toolCall p) = s) ∧
    ((runDispatch initTracker
        [Chunk.toolCallInputStreamingStart "calc" "1",
         Chunk.toolCallDelta "\x7b\"x\":1\x7d",
         Chunk.toolCallInputStreamingEnd,
         Chunk.toolCall Value.null]).completedChunkSpans = [1] ∧
     outputAt (runDispatch initTracker
        [Chunk.toolCallInputStreamingStart "calc" "1",
         Chunk.toolCallDelta "\x7b\"x\":1\x7d",
         Chunk.toolCallInputStreamingEnd,
         Chunk.toolCall Value.null]) 1 =
       some (Value.obj [("toolName", Value.str "calc"),
                        ("toolCallId", Value.str "1"),
                        ("toolInput", Value.obj [("x", Value.num 1)])])) := by
  refine ⟨fun s p => rfl, ?_, rfl, rfl⟩
  intro s p h
  simp [dispatch, endCurrentSpan, h]

/-- Witness for C3 (amended): at the fresh enabled tracker no chunk span is
open, so a lone tool-call chunk leaves the state untouched. -/
theorem c3_tool_call_amended_witness :
    dispatch initTracker (Chunk.toolCall Value.null) = initTracker :=
  c3_tool_call_amended.2.1 initTracker Value.null rfl

/-- C5 counterexample: a delta sequence concatenating to the empty string is
invalid JSON, yet the ended span's toolInput is the empty object produced by
the falsy-guard fallback, not the raw empty string the claim requires. -/
theorem c5_counterexample :
    parseJson "" = none ∧
    outputAt (runDispatch initTracker
        [Chunk.toolCallInputStreamingStart "calc" "1", Chunk.toolCallDelta "",
         Chunk.toolCallInputStreamingEnd]) 1 =
      some (Value.obj [("toolName", Value.str "calc"), ("toolCallId", Value.str "1"),
                       ("toolInput", Value.obj [])]) ∧
    Value.obj [] ≠ Value.str "" :=
  ⟨rfl, rfl, fun h => Value.noConfusion h⟩

theorem tool_deltas_run (ds : List String) (s : TrackerState) (pre : String)
    (he : s.isEnabled = true)
    (hg : getField s.accumulator "toolInput" = some (Value.str pre)) :
    runDispatch s (ds.map Chunk.toolCallDelta) =
      { s with accumulator :=
          setField s.accumulator "toolInput" (Value.str (pre ++ joinAll ds)) } := by
  induction ds generalizing s pre with
  | nil =>
    have hx : setField s.accumulator "toolInput" (Value.str (pre ++ joinAll [])) =
        s.accumulator := by
      rw [joinAll]
      rw [show pre ++ "" = pre by simp]
      exact setField_same _ _ _ hg
    simp [runDispatch, hx]
  | cons d ds ih =>
    have hd : dispatch s (Chunk.toolCallDelta d) =
        { s with accumulator := setField s.accumulator "toolInput" (Value.str (pre ++ d)) } := by
      simp [dispatch, appendToAccumulator, he, hg, jsToString]
    have hg2 : getField (setField s.accumulator "toolInput" (Value.str (pre ++ d)))
        "toolInput" = some (Value.str (pre ++ d)) :=
      getField_setField_self _ _ _
    have hstep : runDispatch s ((d :: ds).map Chunk.toolCallDelta) =
        runDispatch
          { s with
            accumulator := setField s.accumulator "toolInput" (Value.str (pre ++ d)) }
          (ds.map Chunk.toolCallDelta) := by
      rw [List.map_cons]
      show runDispatch (dispatch s (Chunk.toolCallDelta d)) (ds.map Chunk.toolCallDelta) = _
      rw [hd]
    rw [hstep,
      ih
        { s with
          accumulator := setField s.accumulator "toolInput" (Value.str (pre ++ d)) }
        (pre ++ d) he hg2]
    simp [setField_setField, joinAll, String.append_assoc]

theorem toolEndOutput_eval (nm id J : String) :
    toolEndOutput [("toolName", Value.str nm), ("toolCallId", Value.str id),
                   ("toolInput", Value.str J)] =
      Value.obj [("toolName", Value.str nm), ("toolCallId", Value.str id),
        ("toolInput", if J = "" then Value.obj []
                      else (parseJson J).getD (Value.str J))] := by
  by_cases hJ : J = ""
  · subst hJ
    rfl
  · simp [toolEndOutput, fieldOr, toolInputOf, getField, truthy, hJ, jsToString]
    rcases parseJson J with _ | v <;> simp

theorem toolStream_run (nm id : String) (ds : List String) :
    (runDispatch initTracker (Chunk.toolCallInputStreamingStart nm id ::
        (ds.map Chunk.toolCallDelta ++
          [Chunk.toolCallInputStreamingEnd]))).completedChunkSpans = [1] ∧
    outputAt (runDispatch initTracker (Chunk.toolCallInputStreamingStart nm id ::
        (ds.map Chunk.toolCallDelta ++ [Chunk.toolCallInputStreamingEnd]))) 1 =
      some (Value.obj [("toolName", Value.str nm), ("toolCallId", Value.str id),
        ("toolInput",
          if joinAll ds = "" then Value.obj []
          else (parseJson (joinAll ds)).getD (Value.str (joinAll ds)))]) := by
  cases ds with
  | nil => exact ⟨rfl, rfl⟩
  | cons d ds =>
    have hd1 : dispatch (dispatch initTracker (Chunk.toolCallInputStreamingStart nm id))
        (Chunk.toolCallDelta d) =
        { isEnabled := true, currentStepSpan := some 0, currentChunkSpan := some 1,
          completedChunkSpans := [],
          accumulator := [("toolName", Value.str nm), ("toolCallId", Value.str id),
                          ("toolInput", Value.str d)],
          stepIndex := 0, chunkSequence := 0, pendingTokenUsage := none,
          spans := [stepRecordOf 0, chunkRecordOf "tool-call" 0 0],
          backendCalls := 2 } := rfl
    have hfin : runDispatch initTracker (Chunk.toolCallInputStreamingStart nm id ::
        ((d :: ds).map Chunk.toolCallDelta ++ [Chunk.toolCallInputStreamingEnd])) =
        { isEnabled := true, currentStepSpan := some 0, currentChunkSpan := none,
          completedChunkSpans := [1], accumulator := [],
          stepIndex := 0, chunkSequence := 1, pendingTokenUsage := none,
          spans := [stepRecordOf 0,
            { name := "chunk: tool-call", typ := SpanType.llmChunk, parent := some 0,
              attributes := [("chunkType", Value.str "tool-call"),
                             ("sequenceNumber", Value.num 0)],
              output := some (toolEndOutput [("toolName", Value.str nm),
                ("toolCallId", Value.str id),
                ("toolInput", Value.str (d ++ joinAll ds))]),
              endCount := 1 }],
          backendCalls := 3 } := by
      have hsplit : runDispatch initTracker (Chunk.toolCallInputStreamingStart nm id ::
          ((d :: ds).map Chunk.toolCallDelta ++ [Chunk.toolCallInputStreamingEnd])) =
          dispatch (runDispatch (dispatch (dispatch initTracker
              (Chunk.toolCallInputStreamingStart nm id)) (Chunk.toolCallDelta d))
            (ds.map Chunk.toolCallDelta)) Chunk.toolCallInputStreamingEnd := by
        simp [runDispatch]
      have hdr := tool_deltas_run ds
        { isEnabled := true, currentStepSpan := some 0, currentChunkSpan := some 1,
          completedChunkSpans := [],
          accumulator := [("toolName", Value.str nm), ("toolCallId", Value.str id),
                          ("toolInput", Value.str d)],
          stepIndex := 0, chunkSequence := 0, pendingTokenUsage := none,
          spans := [stepRecordOf 0, chunkRecordOf "tool-call" 0 0],
          backendCalls := 2 } d rfl rfl
      rw [hsplit, hd1, hdr]
      rfl
    constructor
    · rw [hfin]
    · rw [hfin]
      show some (toolEndOutput _) = _
      rw [toolEndOutput_eval]
      simp [joinAll]

/-- C5 (amended): at tool-call-input streaming end, a truthy accumulated
toolInput string is JSON-parsed with fallback to the raw string on failure,
but deltas concatenating to the empty string (falsy) yield the empty object;
concretely a valid payload parses to its structured value and an invalid
non-empty one stays the raw string, and no case raises. -/
theorem c5_tool_json_amended :
    (∀ (nm id : String) (ds : List String),
       (runDispatch initTracker (Chunk.toolCallInputStreamingStart nm id ::
           (ds.map Chunk.toolCallDelta ++
             [Chunk.toolCallInputStreamingEnd]))).completedChunkSpans = [1] ∧
       outputAt (runDispatch initTracker (Chunk.toolCallInputStreamingStart nm id ::
           (ds.map Chunk.toolCallDelta ++ [Chunk.toolCallInputStreamingEnd]))) 1 =
         some (Value.obj [("toolName", Value.str nm), ("toolCallId", Value.str id),
           ("toolInput",
             if joinAll ds = "" then Value.obj []
             else (parseJson (joinAll ds)).getD (Value.str (joinAll ds)))])) ∧
    (outputAt (runDispatch initTracker
        [Chunk.toolCallInputStreamingStart "calc" "1",
         Chunk.toolCallDelta "\x7b\"x\":", Chunk.toolCallDelta "1\x7d",
         Chunk.toolCallInputStreamingEnd]) 1 =
      some (Value.obj [("toolName", Value.str "calc"), ("toolCallId", Value.str "1"),
                       ("toolInput", Value.obj [("x", Value.num 1)])])) ∧
    (parseJson "\x7boops" = none ∧
     outputAt (runDispatch initTracker
        [Chunk.toolCallInputStreamingStart "calc" "1",
         Chunk.toolCallDelta "\x7boops",
         Chunk.toolCallInputStreamingEnd]) 1 =
      some (Value.obj [("toolName", Value.str "calc"), ("toolCallId", Value.str "1"),
                       ("toolInput", Value.str "\x7boops")])) :=
  ⟨fun nm id ds => toolStream_run nm id ds, rfl, rfl, rfl⟩

theorem stepIndex_startStep (s : TrackerState) : (startStep s).stepIndex = s.stepIndex := by
  cases he : s.isEnabled <;> simp [startStep, he]

theorem stepIndex_startSpan (s : TrackerState) (ct : String)
    (d : Option (List (String × Value))) : (startSpan s ct d).stepIndex = s.stepIndex := by
  cases he : s.isEnabled with
  | false => simp [startSpan, he]
  | true =>
    rcases hstep : s.currentStepSpan with _ | i <;>
      simp [startSpan, he, hstep, startStep]

theorem stepIndex_createEventSpan (s : TrackerState) (ct : String) (o : Value) :
    (createEventSpan s ct o).stepIndex = s.stepIndex := by
  cases he : s.isEnabled with
  | false => simp [createEventSpan, he]
  | true =>
    rcases hstep : s.currentStepSpan with _ | i <;>
      simp [createEventSpan, he, hstep, startStep]

theorem stepIndex_endCurrentSpan (s : TrackerState) (o : Option Value) :
    (endCurrentSpan s o).stepIndex = s.stepIndex := by
  cases he : s.isEnabled with
  | false => simp [endCurrentSpan, he]
  | true => rcases hc : s.currentChunkSpan with _ | i <;> simp [endCurrentSpan, he, hc]

theorem stepIndex_appendToAccumulator (s : TrackerState) (f t : String) :
    (appendToAccumulator s f t).stepIndex = s.stepIndex := by
  cases he : s.isEnabled with
  | false => simp [appendToAccumulator, he]
  | true =>
    rcases hg : getField s.accumulator f with _ | v
    · simp [appendToAccumulator, he, hg]
    · cases v <;> simp [appendToAccumulator, he, hg]

/-- C8: for an enabled tracker with no open step, startSpan (and likewise
createEventSpan) first creates exactly one step span, placed in the store
before the chunk span and holding stepIndex as its attribute; and stepIndex
is changed by no operation other than endStep, so it is 0 while no step has
ended. -/
theorem c8_auto_step_creation :
    (∀ (s : TrackerState) (ct : String) (d : Option (List (String × Value))),
       s.isEnabled = true → s.currentStepSpan = none →
       (startSpan s ct d).spans =
         s.spans ++ [stepRecordOf s.stepIndex, chunkRecordOf ct s.spans.length 0] ∧
       (startSpan s ct d).currentStepSpan = some s.spans.length ∧
       (startSpan s ct d).stepIndex = s.stepIndex) ∧
    (∀ (s : TrackerState) (ct : String) (o : Value),
       s.isEnabled = true → s.currentStepSpan = none →
       (createEventSpan s ct o).spans =
         s.spans ++ [stepRecordOf s.stepIndex, eventRecordOf ct s.spans.length 0 o] ∧
       (createEventSpan s ct o).currentStepSpan = some s.spans.length) ∧
    (∀ (s : TrackerState) (op : TrackerOp), (∀ fr, op ≠ TrackerOp.opEndStep fr) →
       (applyOp s op).stepIndex = s.stepIndex) := by
  refine ⟨?_, ?_, ?_⟩
  · intro s ct d he hstep
    refine ⟨?_, ?_, ?_⟩ <;> simp [startSpan, startStep, he, hstep]
  · intro s ct o he hstep
    constructor <;> simp [createEventSpan, startStep, he, hstep]
  · intro s op hne
    cases op with
    | opStartStep => exact stepIndex_startStep s
    | opEndStep fr => exact absurd rfl (hne fr)
    | opSetTokenUsage u => cases he : s.isEnabled <;> simp [applyOp, setTokenUsage, he]
    | opStartSpan t d => exact stepIndex_startSpan s t d
    | opUpdateAccumulator u => cases he : s.isEnabled <;> simp [applyOp, updateAccumulator, he]
    | opAppendToAccumulator f t => exact stepIndex_appendToAccumulator s f t
    | opEndCurrentSpan o => exact stepIndex_endCurrentSpan s o
    | opCreateEventSpan t o => exact stepIndex_createEventSpan s t o

/-- Witness for C8: auto step creation from the fresh enabled tracker - one
step span with stepIndex 0 is created, placed before the chunk span. -/
theorem c8_auto_step_creation_witness :
    (startSpan initTracker "text" none).spans =
      [stepRecordOf 0, chunkRecordOf "text" 0 0] ∧
    (startSpan initTracker "text" none).currentStepSpan = some 0 := by
  have h := c8_auto_step_creation.1 initTracker "text" none rfl rfl
  exact ⟨by simpa using h.1, by simpa using h.2.1⟩

theorem startSpan_stepSome (s : TrackerState) (i : Nat) (ct : String)
    (d : Option (List (String × Value)))
    (he : s.isEnabled = true) (hstep : s.currentStepSpan = some i) :
    startSpan s ct d =
      { s with
        spans := s.spans ++ [chunkRecordOf ct i s.chunkSequence]
        backendCalls := s.backendCalls + 1
        currentChunkSpan := some s.spans.length
        accumulator := d.getD [] } := by
  simp [startSpan, he, hstep]

theorem createEventSpan_stepSome (s : TrackerState) (i : Nat) (ct : String) (o : Value)
    (he : s.isEnabled = true) (hstep : s.currentStepSpan = some i) :
    createEventSpan s ct o =
      { s with
        spans := s.spans ++ [eventRecordOf ct i s.chunkSequence o]
        backendCalls := s.backendCalls + 1
        completedChunkSpans := s.completedChunkSpans ++ [s.spans.length]
        chunkSequence := s.chunkSequence + 1 } := by
  simp [createEventSpan, he, hstep]

theorem endCurrentSpan_chunkSome (s : TrackerState) (j : Nat) (o : Option Value)
    (he : s.isEnabled = true) (hc : s.currentChunkSpan = some j) :
    endCurrentSpan s o =
      { s with
        spans := endSpanAt s.spans j (some (o.getD (Value.obj s.accumulator)))
        backendCalls := s.backendCalls + 1
        completedChunkSpans := s.completedChunkSpans ++ [j]
        currentChunkSpan := none
        accumulator := []
        chunkSequence := s.chunkSequence + 1 } := by
  simp [endCurrentSpan, he, hc]

theorem appendToAccumulator_fields (s : TrackerState) (f t : String) :
    ∃ a, appendToAccumulator s f t = { s with accumulator := a } := by
  cases he : s.isEnabled with
  | false =>
    refine ⟨s.accumulator, ?_⟩
    have h : appendToAccumulator s f t = s := by simp [appendToAccumulator, he]
    rw [h, ← he]
  | true =>
    rcases hg : getField s.accumulator f with _ | v
    · exact ⟨setField s.accumulator f (Value.str t),
        by simp [appendToAccumulator, he, hg]⟩
    · cases v with
      | undef =>
        exact ⟨setField s.accumulator f (Value.str t),
          by simp [appendToAccumulator, he, hg]⟩
      | null =>
        exact ⟨setField s.accumulator f (Value.str (jsToString Value.null ++ t)),
          by simp [appendToAccumulator, he, hg]⟩
      | bool b =>
        exact ⟨setField s.accumulator f (Value.str (jsToString (Value.bool b) ++ t)),
          by simp [appendToAccumulator, he, hg]⟩
      | num n =>
        exact ⟨setField s.accumulator f (Value.str (jsToString (Value.num n) ++ t)),
          by simp [appendToAccumulator, he, hg]⟩
      | str a =>
        exact ⟨setField s.accumulator f (Value.str (jsToString (Value.str a) ++ t)),
          by simp [appendToAccumulator, he, hg]⟩
      | arr xs =>
        exact ⟨setField s.accumulator f (Value.str (jsToString (Value.arr xs) ++ t)),
          by simp [appendToAccumulator, he, hg]⟩
      | obj fs =>
        exact ⟨setField s.accumulator f (Value.str (jsToString (Value.obj fs) ++ t)),
          by simp [appendToAccumulator, he, hg]⟩

theorem deltas_fields (g : String → Chunk) (fld : String)
    (hdis : ∀ (x : TrackerState) (t : String), dispatch x (g t) = appendToAccumulator x fld t)
    (ds : List String) (s : TrackerState) :
    ∃ a, runDispatch s (ds.map g) = { s with accumulator := a } := by
  induction ds generalizing s with
  | nil => exact ⟨s.accumulator, rfl⟩
  | cons d ds ih =>
    obtain ⟨a1, h1⟩ := appendToAccumulator_fields s fld d
    obtain ⟨a2, h2⟩ := ih { s with accumulator := a1 }
    refine ⟨a2, ?_⟩
    rw [List.map_cons]
    show runDispatch (dispatch s (g d)) (ds.map g) = _
    rw [hdis s d, h1, h2]

theorem objectRepeat_run (k : Nat) (x : TrackerState) (h : x.currentChunkSpan.isSome) :
    runDispatch x (List.replicate k Chunk.objectChunk) = x := by
  induction k with
  | zero => rfl
  | succ n ih =>
    rw [List.replicate_succ]
    show runDispatch (dispatch x Chunk.objectChunk) _ = x
    rw [show dispatch x Chunk.objectChunk = x by simp [dispatch, hasActiveSpan, h]]
    exact ih

theorem multiPart_effect (s : TrackerState) (i : Nat) (ct : String)
    (d : Option (List (String × Value))) (mid : List Chunk) (endChunk : Chunk)
    (he : s.isEnabled = true) (hstep : s.currentStepSpan = some i)
    (hmid : ∀ (x : TrackerState) (j : Nat), x.currentChunkSpan = some j →
      x.isEnabled = true → ∃ a, runDispatch x mid = { x with accumulator := a })
    (hend : ∀ x : TrackerState, ∃ o, dispatch x endChunk = endCurrentSpan x o) :
    UnitEffect s (dispatch (runDispatch (startSpan s ct d) mid) endChunk) := by
  obtain ⟨a, h2⟩ := hmid
    { s with
      spans := s.spans ++ [chunkRecordOf ct i s.chunkSequence]
      backendCalls := s.backendCalls + 1
      currentChunkSpan := some s.spans.length
      accumulator := d.getD [] }
    s.spans.length rfl he
  have h2b : runDispatch
      { s with
        spans := s.spans ++ [chunkRecordOf ct i s.chunkSequence]
        backendCalls := s.backendCalls + 1
        currentChunkSpan := some s.spans.length
        accumulator := d.getD [] } mid =
      { s with
        spans := s.spans ++ [chunkRecordOf ct i s.chunkSequence]
        backendCalls := s.backendCalls + 1
        currentChunkSpan := some s.spans.length
        accumulator := a } := h2
  obtain ⟨o, h3⟩ := hend
    { s with
      spans := s.spans ++ [chunkRecordOf ct i s.chunkSequence]
      backendCalls := s.backendCalls + 1
      currentChunkSpan := some s.spans.length
      accumulator := a }
  rw [startSpan_stepSome s i ct d he hstep, h2b, h3,
    endCurrentSpan_chunkSome
      { s with
        spans := s.spans ++ [chunkRecordOf ct i s.chunkSequence]
        backendCalls := s.backendCalls + 1
        currentChunkSpan := some s.spans.length
        accumulator := a }
      s.spans.length o he rfl]
  refine ⟨rfl, rfl, rfl, rfl, rfl, ?_, ?_, ?_⟩
  · show (endSpanAt (s.spans ++ [chunkRecordOf ct i s.chunkSequence]) s.spans.length _).length =
      s.spans.length + 1
    rw [endSpanAt, modifySpan_length]
    simp
  · intro j hj
    show (endSpanAt (s.spans ++ [chunkRecordOf ct i s.chunkSequence]) s.spans.length _)[j]? =
      s.spans[j]?
    rw [endSpanAt, getSpan_modify_ne _ _ _ _ (Nat.ne_of_lt hj), getSpan_append_lt _ _ _ hj]
  · show attrAt _ s.spans.length "sequenceNumber" = Value.num s.chunkSequence
    simp [attrAt, endSpanAt, getSpan_modify_self, getSpan_append_self, chunkRecordOf, getField]

theorem event_effect (s : TrackerState) (i : Nat) (ct : String) (o : Value)
    (he : s.isEnabled = true) (hstep : s.currentStepSpan = some i)
    (hchunk : s.currentChunkSpan = none) :
    UnitEffect s (createEventSpan s ct o) := by
  rw [createEventSpan_stepSome s i ct o he hstep]
  refine ⟨rfl, rfl, hchunk, rfl, rfl, by simp, ?_, ?_⟩
  · intro j hj
    exact getSpan_append_lt _ _ _ hj
  · simp [attrAt, getSpan_append_self, eventRecordOf, getField]

theorem unit_effect (u : SpanUnit) (s : TrackerState) (h : StepReady s) :
    UnitEffect s (runDispatch s u.chunks) := by
  obtain ⟨he, ⟨i, hstep⟩, hchunk, _⟩ := h
  cases u with
  | textUnit ds =>
    have hrun : runDispatch s (SpanUnit.textUnit ds).chunks =
        dispatch (runDispatch (dispatch s Chunk.textStart) (ds.map Chunk.textDelta))
          Chunk.textEnd := by
      simp [SpanUnit.chunks, runDispatch]
    rw [hrun, show dispatch s Chunk.textStart = startSpan s "text" none from rfl]
    exact multiPart_effect s i "text" none (ds.map Chunk.textDelta) Chunk.textEnd he hstep
      (fun x j hx hex => deltas_fields Chunk.textDelta "text" (fun _ _ => rfl) ds x)
      (fun x => ⟨jsGet x.accumulator "text", rfl⟩)
  | reasoningUnit ds =>
    have hrun : runDispatch s (SpanUnit.reasoningUnit ds).chunks =
        dispatch (runDispatch (dispatch s Chunk.reasoningStart)
          (ds.map Chunk.reasoningDelta)) Chunk.reasoningEnd := by
      simp [SpanUnit.chunks, runDispatch]
    rw [hrun, show dispatch s Chunk.reasoningStart = startSpan s "reasoning" none from rfl]
    exact multiPart_effect s i "reasoning" none (ds.map Chunk.reasoningDelta)
      Chunk.reasoningEnd he hstep
      (fun x j hx hex => deltas_fields Chunk.reasoningDelta "text" (fun _ _ => rfl) ds x)
      (fun x => ⟨jsGet x.accumulator "text", rfl⟩)
  | toolUnit nm id ds =>
    have hrun : runDispatch s (SpanUnit.toolUnit nm id ds).chunks =
        dispatch (runDispatch (dispatch s (Chunk.toolCallInputStreamingStart nm id))
          (ds.map Chunk.toolCallDelta)) Chunk.toolCallInputStreamingEnd := by
      simp [SpanUnit.chunks, runDispatch]
    rw [hrun, show dispatch s (Chunk.toolCallInputStreamingStart nm id) =
      startSpan s "tool-call"
        (some [("toolName", Value.str nm), ("toolCallId", Value.str id)]) from rfl]
    exact multiPart_effect s i "tool-call"
      (some [("toolName", Value.str nm), ("toolCallId", Value.str id)])
      (ds.map Chunk.toolCallDelta) Chunk.toolCallInputStreamingEnd he hstep
      (fun x j hx hex => deltas_fields Chunk.toolCallDelta "toolInput" (fun _ _ => rfl) ds x)
      (fun x => ⟨some (toolEndOutput x.accumulator), rfl⟩)
  | objectUnit k fv =>
    have hrun : runDispatch s (SpanUnit.objectUnit k fv).chunks =
        dispatch (runDispatch (dispatch s Chunk.objectChunk)
          (List.replicate k Chunk.objectChunk)) (Chunk.objectResult fv) := by
      simp [SpanUnit.chunks, runDispatch]
    rw [hrun, show dispatch s Chunk.objectChunk = startSpan s "object" none by
      simp [dispatch, hasActiveSpan, hchunk]]
    exact multiPart_effect s i "object" none (List.replicate k Chunk.objectChunk)
      (Chunk.objectResult fv) he hstep
      (fun x j hx hex => ⟨x.accumulator, by rw [objectRepeat_run k x (by simp [hx])]⟩)
      (fun x => ⟨jsOpt fv, rfl⟩)
  | eventUnit e =>
    have hrun : runDispatch s (SpanUnit.eventUnit e).chunks = dispatch s e.toChunk := rfl
    rw [hrun]
    cases e <;>
      exact event_effect s i _ _ he hstep hchunk

theorem unitEffect_stepReady (s s2 : TrackerState) (hs : StepReady s)
    (h : UnitEffect s s2) :
    StepReady s2 ∧ seqNumbers s2 = seqNumbers s ++ [Value.num s.chunkSequence] ∧
    s2.chunkSequence = s.chunkSequence + 1 := by
  obtain ⟨he, ⟨i, hstep⟩, _, hcomp⟩ := hs
  obtain ⟨h1, h2, h3, h4, h5, h6, h7, h8⟩ := h
  refine ⟨⟨h1.trans he, ⟨i, h2.trans hstep⟩, h3, ?_⟩, ?_, h4⟩
  · intro j hj
    rw [h5] at hj
    rcases List.mem_append.mp hj with hj | hj
    · have := hcomp j hj
      rw [h6]
      omega
    · simp at hj
      subst hj
      rw [h6]
      omega
  · rw [seqNumbers, h5, List.map_append]
    have hold : List.map (fun j => attrAt s2 j "sequenceNumber") s.completedChunkSpans =
        seqNumbers s := by
      rw [seqNumbers]
      refine List.map_congr_left ?_
      intro j hj
      simp [attrAt, h7 j (hcomp j hj)]
    rw [hold]
    simp [h8]

theorem range_map_shift (c L : Nat) :
    [Value.num (c : Int)] ++ (List.range L).map (fun n => Value.num ((c + 1 + n : Nat))) =
      (List.range (L + 1)).map (fun n => Value.num ((c + n : Nat))) := by
  rw [List.range_succ_eq_map, List.map_cons, List.map_map]
  simp only [List.singleton_append, Nat.add_zero, Nat.cast_add, Nat.cast_ofNat]
  congr 1
  refine List.map_congr_left ?_
  intro n _
  show Value.num ((c + 1 + n : Nat)) = Value.num ((c + Nat.succ n : Nat))
  congr 1
  omega

theorem units_run (us : List SpanUnit) (s : TrackerState) (h : StepReady s) :
    StepReady (runDispatch s (unitsChunks us)) ∧
    (runDispatch s (unitsChunks us)).chunkSequence = s.chunkSequence + us.length ∧
    seqNumbers (runDispatch s (unitsChunks us)) =
      seqNumbers s ++ (List.range us.length).map
        (fun n => Value.num ((s.chunkSequence + n : Nat))) := by
  induction us generalizing s with
  | nil => exact ⟨h, by simp [unitsChunks, runDispatch], by simp [unitsChunks, runDispatch]⟩
  | cons u us ih =>
    have hu := unitEffect_stepReady s _ h (unit_effect u s h)
    have hrec := ih (runDispatch s u.chunks) hu.1
    have hsplit : runDispatch s (unitsChunks (u :: us)) =
        runDispatch (runDispatch s u.chunks) (unitsChunks us) := by
      rw [unitsChunks]
      simp [runDispatch]
    rw [hsplit]
    refine ⟨hrec.1, ?_, ?_⟩
    · rw [hrec.2.1, hu.2.2]
      simp only [List.length_cons]
      omega
    · rw [hrec.2.2, hu.2.1, hu.2.2, List.append_assoc]
      congr 1
      simp only [List.length_cons]
      exact range_map_shift s.chunkSequence us.length

/-- C4 counterexample: an event chunk arriving while a multi-part span is
still open reuses the open span's sequence number (the counter advances only
when a span completes), so two distinct completed chunk spans of the same
auto-created step both carry sequenceNumber 0. -/
theorem c4_counterexample :
    (runDispatch initTracker
      [Chunk.textStart, Chunk.responseMetadata Value.null,
       Chunk.textEnd]).completedChunkSpans = [2, 1] ∧
    attrAt (runDispatch initTracker
      [Chunk.textStart, Chunk.responseMetadata Value.null, Chunk.textEnd]) 2
      "sequenceNumber" = Value.num 0 ∧
    attrAt (runDispatch initTracker
      [Chunk.textStart, Chunk.responseMetadata Value.null, Chunk.textEnd]) 1
      "sequenceNumber" = Value.num 0 ∧
    (2 : Nat) ≠ 1 :=
  ⟨rfl, rfl, rfl, by omega⟩

/-- C4 (amended): the per-step sequence counter advances only when a span
completes, so when chunk-level units do not interleave (each multi-part span
closes before the next span is created) the completed spans of a step carry
sequence numbers counter, counter+1, ...; from a fresh step they are exactly
0..N-1 in arrival order; and starting a new step resets the counter to 0. -/
theorem c4_sequence_numbers :
    (∀ (s : TrackerState) (us : List SpanUnit), StepReady s →
       seqNumbers (runDispatch s (unitsChunks us)) =
         seqNumbers s ++ (List.range us.length).map
           (fun n => Value.num ((s.chunkSequence + n : Nat)))) ∧
    (∀ us : List SpanUnit,
       seqNumbers (runDispatch (startStep initTracker) (unitsChunks us)) =
         (List.range us.length).map (fun n => Value.num ((n : Nat)))) ∧
    (∀ s : TrackerState, s.isEnabled = true → (startStep s).chunkSequence = 0) := by
  refine ⟨fun s us h => (units_run us s h).2.2, ?_, fun s he => by simp [startStep, he]⟩
  intro us
  have h := (units_run us (startStep initTracker)
    ⟨rfl, ⟨0, rfl⟩, rfl, fun j hj => absurd hj (List.not_mem_nil j)⟩).2.2
  simpa [seqNumbers, startStep, initTracker, mkTracker] using h

/-- Witness for C4 (amended): a single text unit on a fresh step yields one
completed span with sequence number 0. -/
theorem c4_sequence_numbers_witness :
    seqNumbers (runDispatch (startStep initTracker)
      (unitsChunks [SpanUnit.textUnit ["hi"]])) = [Value.num 0] := by
  have h := c4_sequence_numbers.1 (startStep initTracker) [SpanUnit.textUnit ["hi"]]
    ⟨rfl, ⟨0, rfl⟩, rfl, fun j hj => absurd hj (List.not_mem_nil j)⟩
  simpa [seqNumbers, startStep, initTracker, mkTracker] using h

end ChunkTracing
